import Mathlib

/-!
Shallow embedding of the `pkg/memory` persistence engine of picoclaw
(`src/pkg/memory/sqlite.go` and `src/pkg/memory/migration.go`).

The SQLite database is modelled as an explicit `Store` value: the
`sessions` table is a list of `SessionRow`, the `messages` table a list of
`MsgRow` carrying the AUTOINCREMENT `id`.  SQL statements are translated
one by one into list operations (`INSERT OR IGNORE` is insert-if-absent,
`ORDER BY seq ASC` is an insertion sort on `seq`, `DELETE ... WHERE` is a
filter).  Timestamps are opaque strings threaded as a `now` argument.

`providers.Message` / `providers.ToolCall` live in `pkg/providers`, which
is not part of the analysed sources; their field sets are reconstructed
from the memory package's uses and the migration tests.  `json.Marshal` of
a non-empty tool-call list is modelled as storing the list itself in the
nullable `tool_calls_json` column (`Option (List ToolCall)`): the store
treats the serialized blob as opaque and Go's JSON codec is inverse on
these record types, so a `some`-tagged payload stands for the non-empty
JSON text and `none` for SQL NULL.
-/

namespace Picoclaw

/-- Modelled from the spec: `providers.FunctionCall` (not under the
analysed sources); field names from the migration tests. -/
structure FunctionCall where
  name : String
  arguments : String
deriving DecidableEq, Repr

/-- Modelled from the spec: `providers.ToolCall`, a structured call
record with identifier, type and function payload (`Function` is a
pointer in Go, hence `Option`). -/
structure ToolCall where
  id : String
  type : String
  function : Option FunctionCall
deriving DecidableEq, Repr

/-- Modelled from the spec: `providers.Message` — the fields the memory
package reads and writes (`Role`, `Content`, `ToolCalls`, `ToolCallID`).
A `nil` Go slice is the empty list. -/
structure Message where
  role : String
  content : String
  toolCalls : List ToolCall
  toolCallID : String
deriving DecidableEq, Repr

/-- A row of the `sessions` table. -/
structure SessionRow where
  key : String
  summary : String
  createdAt : String
  updatedAt : String
deriving DecidableEq, Repr

/-- A row of the `messages` table.  `id` is the AUTOINCREMENT primary
key; `toolCallsJson` is the nullable `tool_calls_json` column (`none` =
SQL NULL, `some tcs` = the JSON serialization of the non-empty list
`tcs`). -/
structure MsgRow where
  id : Nat
  sessionKey : String
  seq : Nat
  role : String
  content : String
  toolCallsJson : Option (List ToolCall)
  toolCallID : String
  createdAt : String
deriving DecidableEq, Repr

/-- The database state: both tables plus the AUTOINCREMENT counter. -/
structure Store where
  sessions : List SessionRow
  messages : List MsgRow
  nextId : Nat
deriving DecidableEq, Repr

/-- `SELECT 1 FROM sessions WHERE key = ?` — does a session row exist. -/
def hasSession (st : Store) (sessionKey : String) : Bool :=
  st.sessions.any (fun s => s.key == sessionKey)

/-- `ensureSession` (sqlite.go:87): `INSERT OR IGNORE INTO sessions (key,
summary, created_at, updated_at) VALUES (?, '', ?, ?)`. -/
def ensureSession (st : Store) (sessionKey now : String) : Store :=
  if hasSession st sessionKey then st
  else { st with sessions := st.sessions ++ [⟨sessionKey, "", now, now⟩] }

/-- `touchSession` (sqlite.go:97): `UPDATE sessions SET updated_at = ?
WHERE key = ?`. -/
def touchSession (st : Store) (sessionKey now : String) : Store :=
  { st with sessions := st.sessions.map (fun s =>
      if s.key == sessionKey then { s with updatedAt := now } else s) }

/-- The rows of `messages` belonging to one session, in storage order. -/
def sessionMsgs (st : Store) (sessionKey : String) : List MsgRow :=
  st.messages.filter (fun m => m.sessionKey == sessionKey)

/-- `nextSeq` (sqlite.go:107): `SELECT MAX(seq) FROM messages WHERE
session_key = ?`; NULL (no rows) gives 1, otherwise max + 1. -/
def nextSeq (st : Store) (sessionKey : String) : Nat :=
  match ((sessionMsgs st sessionKey).map (fun m => m.seq)).max? with
  | some m => m + 1
  | none => 1

/-- `json.Marshal(msg.ToolCalls)` guarded by `len(msg.ToolCalls) > 0`
(sqlite.go:146-155): NULL for an empty list, the serialized list
otherwise. -/
def serializeToolCalls (tcs : List ToolCall) : Option (List ToolCall) :=
  if tcs.isEmpty then none else some tcs

/-- Building the inserted message row (sqlite.go:158-162). -/
def mkRow (sessionKey : String) (msg : Message) (id seq : Nat) (now : String) : MsgRow :=
  ⟨id, sessionKey, seq, msg.role, msg.content,
    serializeToolCalls msg.toolCalls, msg.toolCallID, now⟩

/-- `AddFullMessage` (sqlite.go:129): one transaction — ensure session,
compute next seq, serialize tool calls, insert the row, touch
`updated_at`.  This is the committed (all steps succeed) result. -/
def AddFullMessage (st : Store) (sessionKey : String) (msg : Message) (now : String) : Store :=
  let st1 := ensureSession st sessionKey now
  let seq := nextSeq st1 sessionKey
  let st2 := { st1 with
    messages := st1.messages ++ [mkRow sessionKey msg st1.nextId seq now],
    nextId := st1.nextId + 1 }
  touchSession st2 sessionKey now

/-- `AddMessage` (sqlite.go:122): wrapper with no tool-call data. -/
def AddMessage (st : Store) (sessionKey role content now : String) : Store :=
  AddFullMessage st sessionKey ⟨role, content, [], ""⟩ now

/-- Insertion step of `ORDER BY seq ASC`. -/
def insertBySeq (m : MsgRow) : List MsgRow → List MsgRow
  | [] => [m]
  | x :: xs => if m.seq ≤ x.seq then m :: x :: xs else x :: insertBySeq m xs

/-- `ORDER BY seq ASC` as an insertion sort (seq is unique per session,
so any sort realizes the SQL ordering). -/
def sortBySeq : List MsgRow → List MsgRow
  | [] => []
  | x :: xs => insertBySeq x (sortBySeq xs)

/-- Row scan of `GetHistory` (sqlite.go:189-210): tool calls are
deserialized only when the column is non-NULL and non-empty; a `some`
payload is by construction the serialization of a non-empty list, so its
JSON text is never the empty string. -/
def rowToMessage (r : MsgRow) : Message :=
  { role := r.role
    content := r.content
    toolCalls := match r.toolCallsJson with
      | some tcs => tcs
      | none => []
    toolCallID := r.toolCallID }

/-- `GetHistory` (sqlite.go:175): all messages of the key ordered by
ascending seq; `nil` is normalized to the empty slice, so the result is
always a genuine list. -/
def GetHistory (st : Store) (sessionKey : String) : List Message :=
  (sortBySeq (sessionMsgs st sessionKey)).map rowToMessage

/-- `GetSummary` (sqlite.go:222): `sql.ErrNoRows` (no session row) gives
the empty string, not an error. -/
def GetSummary (st : Store) (sessionKey : String) : String :=
  match st.sessions.find? (fun s => s.key == sessionKey) with
  | some s => s.summary
  | none => ""

/-- `SetSummary` (sqlite.go:237): ensure session, then `UPDATE sessions
SET summary = ?, updated_at = ? WHERE key = ?`. -/
def SetSummary (st : Store) (sessionKey summary now : String) : Store :=
  let st1 := ensureSession st sessionKey now
  { st1 with sessions := st1.sessions.map (fun s =>
      if s.key == sessionKey then { s with summary := summary, updatedAt := now } else s) }

/-- `TruncateHistory` (sqlite.go:261): `keepLast <= 0` deletes all the
session's messages; otherwise it deletes the session's rows whose `id` is
not among `SELECT id ... ORDER BY seq DESC LIMIT keepLast`.  Both
branches touch `updated_at`. -/
def TruncateHistory (st : Store) (sessionKey : String) (keepLast : Int) (now : String) : Store :=
  let st1 :=
    if keepLast ≤ 0 then
      { st with messages := st.messages.filter (fun m => !(m.sessionKey == sessionKey)) }
    else
      let keepIds := (((sortBySeq (sessionMsgs st sessionKey)).reverse).take keepLast.toNat).map
        (fun m => m.id)
      { st with messages := st.messages.filter (fun m =>
          !(m.sessionKey == sessionKey) || keepIds.contains m.id) }
  touchSession st1 sessionKey now

/-- The insertion loop shared by `SetHistory` (sqlite.go:315-335) and
`importSession` (migration.go:115-134): row `i` of the input gets
`seq = i + 1` and consecutive AUTOINCREMENT ids. -/
def mkRows (sessionKey now : String) (baseId startSeq : Nat) : List Message → List MsgRow
  | [] => []
  | msg :: rest =>
      mkRow sessionKey msg baseId startSeq now ::
        mkRows sessionKey now (baseId + 1) (startSeq + 1) rest

/-- `SetHistory` (sqlite.go:293): ensure session, delete all the
session's messages, re-insert the input with 1-based seq, touch
`updated_at`; one transaction. -/
def SetHistory (st : Store) (sessionKey : String) (history : List Message) (now : String) : Store :=
  let st1 := ensureSession st sessionKey now
  let st2 := { st1 with messages := st1.messages.filter (fun m => !(m.sessionKey == sessionKey)) }
  let st3 := { st2 with
    messages := st2.messages ++ mkRows sessionKey now st2.nextId 1 history,
    nextId := st2.nextId + history.length }
  touchSession st3 sessionKey now

/-- The empty database, as produced by `ensureSchema` on a fresh file. -/
def emptyStore : Store := ⟨[], [], 1⟩

/-! ## Failure model of `AddFullMessage` (transaction atomicity)

In the Go code every statement of `AddFullMessage` runs inside one
`sql.Tx` with `defer tx.Rollback()`; an error return before `tx.Commit()`
rolls back every write of the transaction.  The model makes the failure
points explicit: an environment flag per fallible step, uncommitted
writes accumulated in a transaction snapshot, and only the final commit
publishing that snapshot to the store. -/

/-- Environment choice of which step of `AddFullMessage` fails (SQL or
serialization errors are environmental; `false` everywhere is the normal
run). -/
structure AddFailures where
  beginTx : Bool
  ensureSession : Bool
  nextSeq : Bool
  marshal : Bool
  insert : Bool
  touch : Bool
  commit : Bool
deriving DecidableEq, Repr

/-- The error strings of `AddFullMessage`'s failure returns. -/
def addErr : String → Option String := fun s => some ("memory: " ++ s)

/-- `AddFullMessage` with explicit failure points (sqlite.go:129-173).
The result pairs the observable store after the call with the returned
error: each failing step returns before `tx.Commit()`, so the deferred
rollback leaves the original store observable. -/
def AddFullMessageFallible (f : AddFailures) (st : Store) (sessionKey : String)
    (msg : Message) (now : String) : Store × Option String :=
  if f.beginTx then (st, addErr "begin tx")
  else
    if f.ensureSession then (st, addErr "ensure session")
    else
      let tx1 := ensureSession st sessionKey now
      if f.nextSeq then (st, addErr "next seq")
      else
        let seq := nextSeq tx1 sessionKey
        if f.marshal && !msg.toolCalls.isEmpty then (st, addErr "marshal tool calls")
        else
          if f.insert then (st, addErr "insert message")
          else
            let tx2 := { tx1 with
              messages := tx1.messages ++ [mkRow sessionKey msg tx1.nextId seq now],
              nextId := tx1.nextId + 1 }
            if f.touch then (st, addErr "touch session")
            else
              let tx3 := touchSession tx2 sessionKey now
              if f.commit then (st, addErr "commit")
              else (tx3, none)

/-! ## The legacy importer (`migration.go`)

The legacy directory is a list of directory entries.  Reading and JSON
parsing of a file body are environmental: an entry carries the outcome
(`unreadable`, `unparsable`, or the parsed record), and a `renameFails`
flag tells whether the final `os.Rename` would fail for this entry. -/

/-- Modelled from the spec and migration.go:16-22: the parsed legacy
session record `jsonSession` (timestamps kept opaque). -/
structure JsonSession where
  key : String
  messages : List Message
  summary : String
  created : String
  updated : String
deriving DecidableEq, Repr

/-- Outcome of `os.ReadFile` + `json.Unmarshal` on one file. -/
inductive FileBody where
  | unreadable : FileBody
  | unparsable : FileBody
  | parsed : JsonSession → FileBody
deriving DecidableEq, Repr

/-- One directory entry as the importer sees it. -/
structure FsEntry where
  name : String
  isDir : Bool
  body : FileBody
  renameFails : Bool
deriving DecidableEq, Repr

/-- `INSERT OR IGNORE INTO sessions (key, summary, created_at,
updated_at) VALUES (?, ?, ?, ?)` (migration.go:93-96). -/
def insertOrIgnoreSession (st : Store) (sessionKey summary created updated : String) : Store :=
  if hasSession st sessionKey then st
  else { st with sessions := st.sessions ++ [⟨sessionKey, summary, created, updated⟩] }

/-- `importSession` (migration.go:82): one transaction — insert the
session row if absent; if the session already has messages, commit with
no further writes; otherwise insert the legacy messages in array order
with 1-based seq. -/
def importSession (st : Store) (sess : JsonSession) (now : String) : Store :=
  let st1 := insertOrIgnoreSession st sess.key sess.summary sess.created sess.updated
  if (sessionMsgs st1 sess.key).length > 0 then st1
  else { st1 with
    messages := st1.messages ++ mkRows sess.key now st1.nextId 1 sess.messages,
    nextId := st1.nextId + sess.messages.length }

/-- Go's `strings.HasSuffix`, at character level: for the ASCII suffixes
`".json"` and `".migrated"` a byte-level suffix is exactly a character
suffix, so this is a faithful model of the checks in migration.go. -/
def hasSuffix (s suffix : String) : Bool :=
  suffix.data.isSuffixOf s.data

/-- The loop body's candidate test (migration.go:42-52): a non-directory
entry named `*.json` and not `*.migrated`. -/
def isCandidate (e : FsEntry) : Bool :=
  !e.isDir && hasSuffix e.name ".json" && !(hasSuffix e.name ".migrated")

/-- The entry after `os.Rename(filePath, filePath+".migrated")` whose
error is discarded (migration.go:74): on failure the file keeps its
name. -/
def renameEntry (e : FsEntry) : FsEntry :=
  if e.renameFails then e else { e with name := e.name ++ ".migrated" }

/-- The loop of `MigrateFromJSON` (migration.go:40-78) over the directory
listing: returns the migrated count, the final store, and the directory
listing after the renames.  In this model `importSession` always commits
(its only failures are environmental SQL errors). -/
def migrateLoop (st : Store) (now : String) : List FsEntry → Nat × Store × List FsEntry
  | [] => (0, st, [])
  | e :: rest =>
    if isCandidate e then
      match e.body with
      | .unreadable =>
          let r := migrateLoop st now rest
          (r.1, r.2.1, e :: r.2.2)
      | .unparsable =>
          let r := migrateLoop st now rest
          (r.1, r.2.1, e :: r.2.2)
      | .parsed sess =>
          if sess.key == "" then
            let r := migrateLoop st now rest
            (r.1, r.2.1, e :: r.2.2)
          else
            let st1 := importSession st sess now
            let r := migrateLoop st1 now rest
            (r.1 + 1, r.2.1, renameEntry e :: r.2.2)
    else
      let r := migrateLoop st now rest
      (r.1, r.2.1, e :: r.2.2)

/-- Outcome of `os.ReadDir(sessionsDir)`: missing directory, other read
error, or the listing. -/
inductive DirRead where
  | notExist : DirRead
  | readFail : DirRead
  | ok : List FsEntry → DirRead
deriving DecidableEq, Repr

/-- `MigrateFromJSON` (migration.go:31): a missing directory returns 0
with no error; any other `ReadDir` failure is the batch's only error
path; otherwise the per-file loop runs. -/
def MigrateFromJSON (st : Store) (now : String) :
    DirRead → Except String (Nat × Store × List FsEntry)
  | .notExist => .ok (0, st, [])
  | .readFail => .error "memory: read sessions dir"
  | .ok entries => .ok (migrateLoop st now entries)

/-- Iterated `AddFullMessage` on one session: each call brings its own
message and timestamp. -/
def addAll (st : Store) (sessionKey : String) : List (Message × String) → Store
  | [] => st
  | (msg, now) :: rest => addAll (AddFullMessage st sessionKey msg now) sessionKey rest

/-- A candidate file the loop imports and counts: readable, parsable,
and carrying a non-empty key (in this model `importSession` always
commits, its failures being environmental SQL errors). -/
def goodFile (e : FsEntry) : Bool :=
  isCandidate e &&
    (match e.body with
     | .parsed sess => !(sess.key == "")
     | _ => false)

/-- A candidate file the loop skips as a per-file soft failure: read
failure, parse failure, or an empty key (migration.go:55-67). -/
def badFile (e : FsEntry) : Bool :=
  isCandidate e &&
    (match e.body with
     | .unreadable => true
     | .unparsable => true
     | .parsed sess => sess.key == "")

/-! ## Frame lemmas for the transaction helpers -/

theorem ensureSession_messages (st : Store) (k now : String) :
    (ensureSession st k now).messages = st.messages := by
  unfold ensureSession; split <;> rfl

theorem ensureSession_nextId (st : Store) (k now : String) :
    (ensureSession st k now).nextId = st.nextId := by
  unfold ensureSession; split <;> rfl

theorem sessionMsgs_touchSession (st : Store) (k k' now : String) :
    sessionMsgs (touchSession st k now) k' = sessionMsgs st k' := rfl

theorem sessionMsgs_ensureSession (st : Store) (k k' now : String) :
    sessionMsgs (ensureSession st k now) k' = sessionMsgs st k' := by
  unfold sessionMsgs; rw [ensureSession_messages]

theorem nextSeq_ensureSession (st : Store) (k k' now : String) :
    nextSeq (ensureSession st k now) k' = nextSeq st k' := by
  unfold nextSeq; rw [sessionMsgs_ensureSession]

/-! ## `max?` and `foldr max` arithmetic -/

theorem foldl_max_eq_max_foldr (xs : List Nat) (x : Nat) :
    xs.foldl max x = max x (xs.foldr max 0) := by
  induction xs generalizing x with
  | nil => simp
  | cons y ys ih =>
      rw [List.foldl_cons, List.foldr_cons, ih (max x y), Nat.max_assoc]

theorem nextSeq_eq_foldr (st : Store) (k : String) :
    nextSeq st k = ((sessionMsgs st k).map (fun m => m.seq)).foldr max 0 + 1 := by
  unfold nextSeq
  cases h : (sessionMsgs st k).map (fun m => m.seq) with
  | nil => simp [h]
  | cons x xs =>
      show xs.foldl max x + 1 = (x :: xs).foldr max 0 + 1
      rw [foldl_max_eq_max_foldr, List.foldr_cons]

theorem le_foldr_max (xs : List Nat) : ∀ x ∈ xs, x ≤ xs.foldr max 0 := by
  induction xs with
  | nil => intro x hx; cases hx
  | cons y ys ih =>
      intro x hx
      rw [List.foldr_cons]
      rcases List.mem_cons.mp hx with h | h
      · exact h ▸ Nat.le_max_left _ _
      · exact Nat.le_trans (ih x h) (Nat.le_max_right _ _)

theorem foldr_max_init (l : List Nat) (b : Nat) :
    l.foldr max b = max b (l.foldr max 0) := by
  induction l with
  | nil => simp
  | cons x xs ih =>
      rw [List.foldr_cons, List.foldr_cons, ih, ← Nat.max_assoc,
        Nat.max_comm x b, Nat.max_assoc]

theorem foldr_max_range'_one (n : Nat) :
    (List.range' 1 n).foldr max 0 = n := by
  induction n with
  | zero => rfl
  | succ m ih =>
      rw [List.range'_1_concat, List.foldr_append, List.foldr_cons,
        List.foldr_nil, foldr_max_init, ih]
      omega

/-! ## Insertion sort on `seq` -/

theorem insertBySeq_append_single (r m : MsgRow) (l : List MsgRow) (h : r.seq ≤ m.seq) :
    insertBySeq r (l ++ [m]) = insertBySeq r l ++ [m] := by
  induction l with
  | nil => simp [insertBySeq, h]
  | cons x xs ih =>
      by_cases hc : r.seq ≤ x.seq <;>
        simp [insertBySeq, hc, ih]

theorem sortBySeq_append_single (l : List MsgRow) (m : MsgRow)
    (h : ∀ r ∈ l, r.seq ≤ m.seq) :
    sortBySeq (l ++ [m]) = sortBySeq l ++ [m] := by
  induction l with
  | nil => rfl
  | cons x xs ih =>
      simp only [List.cons_append, sortBySeq, List.append_eq]
      rw [ih (fun r hr => h r (List.mem_cons_of_mem _ hr))]
      exact insertBySeq_append_single x m _ (h x (List.mem_cons_self _ _))

theorem insertBySeq_cons_of_le (m x : MsgRow) (xs : List MsgRow) (h : m.seq ≤ x.seq) :
    insertBySeq m (x :: xs) = m :: x :: xs := by
  simp [insertBySeq, h]

theorem sortBySeq_eq_self {l : List MsgRow}
    (h : l.Pairwise (fun a b => a.seq < b.seq)) :
    sortBySeq l = l := by
  induction l with
  | nil => rfl
  | cons x xs ih =>
      obtain ⟨hx, hxs⟩ := List.pairwise_cons.mp h
      simp only [sortBySeq, ih hxs]
      cases xs with
      | nil => rfl
      | cons y ys =>
          exact insertBySeq_cons_of_le _ _ _
            (Nat.le_of_lt (hx y (List.mem_cons_self _ _)))

theorem pairwise_of_seq_range' {l : List MsgRow} {s n : Nat}
    (h : l.map (fun m => m.seq) = List.range' s n) :
    l.Pairwise (fun a b => a.seq < b.seq) := by
  have hp : (l.map (fun m => m.seq)).Pairwise (· < ·) := by
    rw [h]; exact List.pairwise_lt_range' s n
  exact List.pairwise_map.mp hp

/-! ## Effect of one `AddFullMessage` -/

theorem rowToMessage_mkRow (k : String) (msg : Message) (id seq : Nat) (now : String) :
    rowToMessage (mkRow k msg id seq now) = msg := by
  cases msg with
  | mk role content toolCalls toolCallID =>
      cases toolCalls <;> simp [mkRow, rowToMessage, serializeToolCalls]

theorem sessionMsgs_AddFullMessage (st : Store) (k : String) (msg : Message) (now : String) :
    sessionMsgs (AddFullMessage st k msg now) k =
      sessionMsgs st k ++ [mkRow k msg st.nextId (nextSeq st k) now] := by
  simp only [AddFullMessage, sessionMsgs_touchSession]
  show (((ensureSession st k now).messages ++
      [mkRow k msg (ensureSession st k now).nextId (nextSeq (ensureSession st k now) k) now]).filter
        (fun m => m.sessionKey == k)) = _
  rw [ensureSession_messages, ensureSession_nextId, nextSeq_ensureSession,
    List.filter_append]
  simp [sessionMsgs, mkRow]

theorem seqs_AddFullMessage (st : Store) (k : String) (msg : Message) (now : String) :
    (sessionMsgs (AddFullMessage st k msg now) k).map (fun m => m.seq)
      = (sessionMsgs st k).map (fun m => m.seq) ++ [nextSeq st k] := by
  rw [sessionMsgs_AddFullMessage]; simp [mkRow]

theorem GetHistory_AddFullMessage (st : Store) (k : String) (msg : Message) (now : String) :
    GetHistory (AddFullMessage st k msg now) k = GetHistory st k ++ [msg] := by
  unfold GetHistory
  rw [sessionMsgs_AddFullMessage, sortBySeq_append_single]
  · simp [rowToMessage_mkRow]
  · intro r hr
    have hle : r.seq ≤ ((sessionMsgs st k).map (fun m => m.seq)).foldr max 0 :=
      le_foldr_max _ _ (List.mem_map_of_mem _ hr)
    simp only [mkRow, nextSeq_eq_foldr]
    omega

/-- Iterating `AddFullMessage`: if a session's stored seq values are
exactly `1..n`, adding `calls` extends them to `1..n+len` and appends the
messages, in call order, to `GetHistory`. -/
theorem addAll_spec (k : String) (calls : List (Message × String)) :
    ∀ st n, (sessionMsgs st k).map (fun m => m.seq) = List.range' 1 n →
      (sessionMsgs (addAll st k calls) k).map (fun m => m.seq)
          = List.range' 1 (n + calls.length) ∧
        GetHistory (addAll st k calls) k = GetHistory st k ++ calls.map Prod.fst := by
  induction calls with
  | nil => intro st n h; simp [addAll, h]
  | cons c rest ih =>
      intro st n h
      obtain ⟨msg, now⟩ := c
      have hstep : (sessionMsgs (AddFullMessage st k msg now) k).map (fun m => m.seq)
          = List.range' 1 (n + 1) := by
        rw [seqs_AddFullMessage, h, nextSeq_eq_foldr, h, foldr_max_range'_one,
          List.range'_1_concat]
        simp [Nat.add_comm]
      obtain ⟨h1, h2⟩ := ih (AddFullMessage st k msg now) (n + 1) hstep
      refine ⟨?_, ?_⟩
      · show (sessionMsgs (addAll (AddFullMessage st k msg now) k rest) k).map
            (fun m => m.seq) = _
        rw [h1]
        have : n + 1 + rest.length = n + (rest.length + 1) := by omega
        rw [this]
        rfl
      · show GetHistory (addAll (AddFullMessage st k msg now) k rest) k = _
        rw [h2, GetHistory_AddFullMessage]
        simp

/-- C1: on a session that starts with no messages, any sequence of
`AddFullMessage` calls leaves `GetHistory` equal to the messages in call
order, the stored seq values are exactly `1, 2, ..., n` with no gaps, and
`nextSeq` (max existing seq + 1, or 1 for an empty session) would assign
`n + 1` next. -/
theorem addFullMessage_sequencing (st : Store) (k : String)
    (calls : List (Message × String)) (h : sessionMsgs st k = []) :
    GetHistory (addAll st k calls) k = calls.map Prod.fst ∧
    (sessionMsgs (addAll st k calls) k).map (fun m => m.seq)
      = List.range' 1 calls.length ∧
    nextSeq (addAll st k calls) k = calls.length + 1 := by
  have h0 : (sessionMsgs st k).map (fun m => m.seq) = List.range' 1 0 := by
    simp [h]
  obtain ⟨h1, h2⟩ := addAll_spec k calls st 0 h0
  refine ⟨?_, ?_, ?_⟩
  · rw [h2]
    simp [GetHistory, h, sortBySeq]
  · simpa using h1
  · rw [nextSeq_eq_foldr]
    have h1' : (sessionMsgs (addAll st k calls) k).map (fun m => m.seq)
        = List.range' 1 calls.length := by simpa using h1
    rw [h1', foldr_max_range'_one]

/-- Witness for C1: two concrete calls on the empty store. -/
theorem addFullMessage_sequencing_witness :
    GetHistory (addAll emptyStore "s1"
        [(⟨"user", "hello", [], ""⟩, "t1"), (⟨"assistant", "hi", [], ""⟩, "t2")]) "s1"
      = [⟨"user", "hello", [], ""⟩, ⟨"assistant", "hi", [], ""⟩] ∧
    (sessionMsgs (addAll emptyStore "s1"
        [(⟨"user", "hello", [], ""⟩, "t1"), (⟨"assistant", "hi", [], ""⟩, "t2")]) "s1").map
        (fun m => m.seq) = List.range' 1 2 ∧
    nextSeq (addAll emptyStore "s1"
        [(⟨"user", "hello", [], ""⟩, "t1"), (⟨"assistant", "hi", [], ""⟩, "t2")]) "s1" = 3 :=
  addFullMessage_sequencing emptyStore "s1"
    [(⟨"user", "hello", [], ""⟩, "t1"), (⟨"assistant", "hi", [], ""⟩, "t2")] (by decide)

/-- C5: a message whose tool-call list is non-empty, written with
`AddFullMessage` and read back with `GetHistory`, comes back as the last
history entry with an identical tool-call list (same records, same
order, identical ids, types and argument payloads). -/
theorem toolCalls_roundtrip (st : Store) (k : String) (msg : Message) (now : String)
    (_h : msg.toolCalls ≠ []) :
    GetHistory (AddFullMessage st k msg now) k = GetHistory st k ++ [msg] ∧
    ((GetHistory (AddFullMessage st k msg now) k).map (fun m => m.toolCalls)).getLast?
      = some msg.toolCalls := by
  refine ⟨GetHistory_AddFullMessage st k msg now, ?_⟩
  rw [GetHistory_AddFullMessage]
  simp

/-- Witness for C5: a message carrying one structured tool call. -/
theorem toolCalls_roundtrip_witness :
    GetHistory (AddFullMessage emptyStore "s1"
        ⟨"assistant", "Searching...",
          [⟨"call_1", "function", some ⟨"web_search", "q=test"⟩⟩], ""⟩ "t1") "s1"
      = GetHistory emptyStore "s1" ++
        [⟨"assistant", "Searching...",
          [⟨"call_1", "function", some ⟨"web_search", "q=test"⟩⟩], ""⟩] ∧
    ((GetHistory (AddFullMessage emptyStore "s1"
        ⟨"assistant", "Searching...",
          [⟨"call_1", "function", some ⟨"web_search", "q=test"⟩⟩], ""⟩ "t1") "s1").map
        (fun m => m.toolCalls)).getLast?
      = some [⟨"call_1", "function", some ⟨"web_search", "q=test"⟩⟩] :=
  toolCalls_roundtrip emptyStore "s1"
    ⟨"assistant", "Searching...",
      [⟨"call_1", "function", some ⟨"web_search", "q=test"⟩⟩], ""⟩ "t1" (by decide)

/-- `GetSummary` of a key with no session row takes the `sql.ErrNoRows`
branch and yields the empty string. -/
theorem GetSummary_absent (st : Store) (k : String) (h : hasSession st k = false) :
    GetSummary st k = "" := by
  unfold GetSummary
  cases hf : st.sessions.find? (fun s => s.key == k) with
  | none => rfl
  | some s =>
      exfalso
      have hmem : s ∈ st.sessions := List.mem_of_find?_eq_some hf
      have hkey := List.find?_some hf
      have hall : ∀ x ∈ st.sessions, ¬(x.key == k) = true := by
        simpa [hasSession, List.any_eq_false] using h
      exact hall s hmem hkey

/-- C8: reading a nonexistent or empty session never yields an absent
value: `GetHistory` of a key with no message rows is the empty list, and
`GetSummary` of a key with no session row is the empty string, neither
being an error. -/
theorem missing_session_reads (st : Store) (k : String) :
    (sessionMsgs st k = [] → GetHistory st k = []) ∧
    (hasSession st k = false → GetSummary st k = "") := by
  refine ⟨?_, GetSummary_absent st k⟩
  intro h; simp [GetHistory, h, sortBySeq]

/-- Witness for C8: the empty store has neither session nor messages. -/
theorem missing_session_reads_witness :
    GetHistory emptyStore "k" = [] ∧ GetSummary emptyStore "k" = "" :=
  ⟨(missing_session_reads emptyStore "k").1 (by decide),
   (missing_session_reads emptyStore "k").2 (by decide)⟩

/-! ## `SetHistory` -/

theorem mkRows_map_seq (k now : String) (msgs : List Message) :
    ∀ b s, (mkRows k now b s msgs).map (fun m => m.seq) = List.range' s msgs.length := by
  induction msgs with
  | nil => intro b s; rfl
  | cons m rest ih =>
      intro b s
      simp only [mkRows, List.map_cons, List.length_cons, List.range'_succ, ih]
      rfl

theorem mkRows_sessionKey (k now : String) (msgs : List Message) :
    ∀ b s, ∀ r ∈ mkRows k now b s msgs, r.sessionKey = k := by
  induction msgs with
  | nil => intro b s r hr; cases hr
  | cons m rest ih =>
      intro b s r hr
      rcases List.mem_cons.mp hr with h | h
      · rw [h]; rfl
      · exact ih (b + 1) (s + 1) r h

theorem mkRows_map_rowToMessage (k now : String) (msgs : List Message) :
    ∀ b s, (mkRows k now b s msgs).map rowToMessage = msgs := by
  induction msgs with
  | nil => intro b s; rfl
  | cons m rest ih =>
      intro b s
      simp only [mkRows, List.map_cons, rowToMessage_mkRow, ih]

theorem filter_not_filter (l : List MsgRow) (k : String) :
    ((l.filter (fun m => !(m.sessionKey == k))).filter (fun m => m.sessionKey == k)) = [] := by
  rw [List.filter_filter]
  apply List.filter_eq_nil_iff.mpr
  intro m _
  cases h : (m.sessionKey == k) <;> simp [h]

theorem sessionMsgs_SetHistory (st : Store) (k : String) (history : List Message)
    (now : String) :
    sessionMsgs (SetHistory st k history now) k = mkRows k now st.nextId 1 history := by
  simp only [SetHistory, sessionMsgs_touchSession]
  show ((((ensureSession st k now).messages.filter (fun m => !(m.sessionKey == k))) ++
      mkRows k now (ensureSession st k now).nextId 1 history).filter
        (fun m => m.sessionKey == k)) = _
  rw [ensureSession_messages, ensureSession_nextId, List.filter_append, filter_not_filter,
    List.nil_append]
  apply List.filter_eq_self.mpr
  intro r hr
  simp [mkRows_sessionKey k now history st.nextId 1 r hr]

/-- C4: `SetHistory` replaces whatever history the key had with exactly
the input sequence (seq assigned as 1-based input position), so
`GetHistory` afterwards returns the input; in particular a second
`SetHistory` with the same input leaves `GetHistory` unchanged. -/
theorem setHistory_replaces (st : Store) (k : String) (history : List Message)
    (now : String) :
    GetHistory (SetHistory st k history now) k = history ∧
    (sessionMsgs (SetHistory st k history now) k).map (fun m => m.seq)
      = List.range' 1 history.length ∧
    ∀ now2, GetHistory (SetHistory (SetHistory st k history now) k history now2) k
      = history := by
  have key : ∀ st0 now0, GetHistory (SetHistory st0 k history now0) k = history := by
    intro st0 now0
    unfold GetHistory
    rw [sessionMsgs_SetHistory, sortBySeq_eq_self, mkRows_map_rowToMessage]
    exact pairwise_of_seq_range' (mkRows_map_seq k now0 history st0.nextId 1)
  refine ⟨key st now, ?_, fun now2 => key (SetHistory st k history now) now2⟩
  rw [sessionMsgs_SetHistory]
  exact mkRows_map_seq k now history st.nextId 1

/-! ## Atomicity of `AddFullMessage` -/

/-- C9: `AddFullMessage` is atomic — whenever any step fails (the call
returns an error), the observable store is exactly the one from before
the call: the transaction rolled back and no partial write is visible. -/
theorem addFullMessage_atomic (f : AddFailures) (st : Store) (k : String)
    (msg : Message) (now : String)
    (h : (AddFullMessageFallible f st k msg now).2.isSome = true) :
    (AddFullMessageFallible f st k msg now).1 = st := by
  revert h
  unfold AddFullMessageFallible
  repeat' split
  all_goals intro h
  all_goals first | rfl | simp at h

/-- Witness for C9: failing the `updated_at` refresh leaves the empty
store untouched. -/
theorem addFullMessage_atomic_witness :
    (AddFullMessageFallible ⟨false, false, false, false, false, true, false⟩
        emptyStore "k" ⟨"user", "hi", [], ""⟩ "t").2.isSome = true ∧
    (AddFullMessageFallible ⟨false, false, false, false, false, true, false⟩
        emptyStore "k" ⟨"user", "hi", [], ""⟩ "t").1 = emptyStore :=
  ⟨by decide,
   addFullMessage_atomic ⟨false, false, false, false, false, true, false⟩
     emptyStore "k" ⟨"user", "hi", [], ""⟩ "t" (by decide)⟩

/-- `AddFullMessageFallible` with no failing step commits exactly the
`AddFullMessage` result and returns no error: the two models agree. -/
theorem addFullMessageFallible_ok (st : Store) (k : String) (msg : Message) (now : String) :
    AddFullMessageFallible ⟨false, false, false, false, false, false, false⟩ st k msg now
      = (AddFullMessage st k msg now, none) := rfl

/-! ## `TruncateHistory` on an absent session (frame property) -/

theorem touchSession_sessions_of_absent (st : Store) (k now : String)
    (h : hasSession st k = false) :
    (touchSession st k now).sessions = st.sessions := by
  unfold touchSession
  have hall : ∀ x ∈ st.sessions, ¬(x.key == k) = true := by
    simpa [hasSession, List.any_eq_false] using h
  show st.sessions.map (fun s => if s.key == k then { s with updatedAt := now } else s)
      = st.sessions
  have : ∀ x ∈ st.sessions,
      (fun s => if s.key == k then { s with updatedAt := now } else s) x = id x := by
    intro x hx
    simp [hall x hx]
  rw [List.map_congr_left this, List.map_id]

theorem TruncateHistory_sessions (st : Store) (k : String) (keepLast : Int) (now : String) :
    (TruncateHistory st k keepLast now).sessions = (touchSession st k now).sessions := by
  unfold TruncateHistory
  split <;> rfl

/-- C10: `TruncateHistory` never creates a session row — on a key with
no session row, any `keepLast` leaves the `sessions` table exactly as it
was (no insert-if-absent step, and the `updated_at` refresh matches no
row), and `GetSummary` still reports a nonexistent session. -/
theorem truncateHistory_no_session_row (st : Store) (k : String) (keepLast : Int)
    (now : String) (h : hasSession st k = false) :
    (TruncateHistory st k keepLast now).sessions = st.sessions ∧
    GetSummary (TruncateHistory st k keepLast now) k = "" := by
  have hframe : (TruncateHistory st k keepLast now).sessions = st.sessions := by
    rw [TruncateHistory_sessions]
    exact touchSession_sessions_of_absent st k now h
  refine ⟨hframe, ?_⟩
  apply GetSummary_absent
  unfold hasSession
  rw [hframe]
  exact h

/-! ## `TruncateHistory` keep-last semantics -/

theorem filter_or_filter (l : List MsgRow) (k : String) (p : MsgRow → Bool) :
    ((l.filter (fun m => !(m.sessionKey == k) || p m)).filter (fun m => m.sessionKey == k))
      = (l.filter (fun m => m.sessionKey == k)).filter p := by
  induction l with
  | nil => rfl
  | cons x xs ih =>
      cases h1 : x.sessionKey == k <;> cases h2 : p x <;>
        simp [List.filter_cons, h1, h2, ih]

theorem filter_id_mem_drop (rows : List MsgRow)
    (hnodup : (rows.map (fun m => m.id)).Nodup) (j : Nat) :
    rows.filter (fun m => ((rows.drop j).map (fun m => m.id)).contains m.id)
      = rows.drop j := by
  have hsplit : rows.map (fun m => m.id)
      = (rows.take j).map (fun m => m.id) ++ (rows.drop j).map (fun m => m.id) := by
    rw [← List.map_append, List.take_append_drop]
  rw [hsplit] at hnodup
  obtain ⟨-, -, hdisj⟩ := List.nodup_append.mp hnodup
  have h1 : (rows.take j).filter
      (fun m => ((rows.drop j).map (fun m => m.id)).contains m.id) = [] := by
    apply List.filter_eq_nil_iff.mpr
    intro m hm
    have hmem : m.id ∈ (rows.take j).map (fun m => m.id) := List.mem_map_of_mem _ hm
    have hnot : m.id ∉ (rows.drop j).map (fun m => m.id) := fun hc => hdisj hmem hc
    simpa [List.contains] using hnot
  have h2 : (rows.drop j).filter
      (fun m => ((rows.drop j).map (fun m => m.id)).contains m.id) = rows.drop j := by
    apply List.filter_eq_self.mpr
    intro m hm
    have hmem : m.id ∈ (rows.drop j).map (fun m => m.id) := List.mem_map_of_mem _ hm
    simpa [List.contains] using hmem
  calc rows.filter (fun m => ((rows.drop j).map (fun m => m.id)).contains m.id)
      = (rows.take j ++ rows.drop j).filter
          (fun m => ((rows.drop j).map (fun m => m.id)).contains m.id) := by
        rw [List.take_append_drop]
    _ = rows.drop j := by rw [List.filter_append, h1, h2, List.nil_append]

theorem reverse_take_eq_drop_reverse (l : List MsgRow) (n : Nat) :
    l.reverse.take n = (l.drop (l.length - n)).reverse := by
  have h := List.rtake_eq_reverse_take_reverse l n
  rw [List.rtake] at h
  rw [h, List.reverse_reverse]

/-- The session's rows after `TruncateHistory` with a positive
`keepLast`, for a store whose stored order is ascending in `seq` and
whose ids are unique (both schema/reachability invariants). -/
theorem sessionMsgs_TruncateHistory_pos (st : Store) (k : String) (keepLast : Int)
    (now : String)
    (hsort : (sessionMsgs st k).Pairwise (fun a b => a.seq < b.seq))
    (hnodup : ((sessionMsgs st k).map (fun m => m.id)).Nodup)
    (hpos : 0 < keepLast) :
    sessionMsgs (TruncateHistory st k keepLast now) k
      = (sessionMsgs st k).drop ((sessionMsgs st k).length - keepLast.toNat) := by
  have hnle : ¬keepLast ≤ 0 := by omega
  simp only [TruncateHistory, hnle, if_false, sessionMsgs_touchSession]
  show ((st.messages.filter (fun m => !(m.sessionKey == k) ||
      ((((sortBySeq (sessionMsgs st k)).reverse).take keepLast.toNat).map
        (fun m => m.id)).contains m.id)).filter (fun m => m.sessionKey == k)) = _
  rw [filter_or_filter, sortBySeq_eq_self hsort, reverse_take_eq_drop_reverse]
  have hcongr : ∀ m : MsgRow,
      ((((sessionMsgs st k).drop ((sessionMsgs st k).length - keepLast.toNat)).reverse).map
        (fun r => r.id)).contains m.id
      = (((sessionMsgs st k).drop ((sessionMsgs st k).length - keepLast.toNat)).map
        (fun r => r.id)).contains m.id := by
    intro m
    simp [List.contains, List.map_reverse]
  have e1 : ((sessionMsgs st k).filter (fun m =>
        ((((sessionMsgs st k).drop ((sessionMsgs st k).length - keepLast.toNat)).reverse).map
          (fun r => r.id)).contains m.id))
      = ((sessionMsgs st k).filter (fun m =>
        (((sessionMsgs st k).drop ((sessionMsgs st k).length - keepLast.toNat)).map
          (fun r => r.id)).contains m.id)) :=
    List.filter_congr (fun m _ => hcongr m)
  exact e1.trans (filter_id_mem_drop (sessionMsgs st k) hnodup _)

/-- C3: `TruncateHistory` with `keepLast ≤ 0` deletes all of the
session's messages; with `keepLast = N > 0` it retains exactly the `N`
messages with the largest seq values (all others deleted), and
`GetHistory` afterwards returns those retained messages in their
original ascending-seq order. -/
theorem truncateHistory_keep_last (st : Store) (k : String) (keepLast : Int) (now : String)
    (hsort : (sessionMsgs st k).Pairwise (fun a b => a.seq < b.seq))
    (hnodup : ((sessionMsgs st k).map (fun m => m.id)).Nodup) :
    (keepLast ≤ 0 → sessionMsgs (TruncateHistory st k keepLast now) k = []) ∧
    (0 < keepLast →
      sessionMsgs (TruncateHistory st k keepLast now) k
        = (sessionMsgs st k).drop ((sessionMsgs st k).length - keepLast.toNat) ∧
      GetHistory (TruncateHistory st k keepLast now) k
        = (GetHistory st k).drop ((sessionMsgs st k).length - keepLast.toNat)) := by
  constructor
  · intro hle
    simp only [TruncateHistory, hle, if_true, sessionMsgs_touchSession]
    show ((st.messages.filter (fun m => !(m.sessionKey == k))).filter
        (fun m => m.sessionKey == k)) = []
    exact filter_not_filter st.messages k
  · intro hpos
    have hrows := sessionMsgs_TruncateHistory_pos st k keepLast now hsort hnodup hpos
    refine ⟨hrows, ?_⟩
    have hsort' : ((sessionMsgs st k).drop
        ((sessionMsgs st k).length - keepLast.toNat)).Pairwise (fun a b => a.seq < b.seq) :=
      hsort.sublist (List.drop_sublist _ _)
    unfold GetHistory
    rw [hrows, sortBySeq_eq_self hsort', sortBySeq_eq_self hsort, ← List.map_drop]

/-- Witness for C3: a three-message session truncated to its last two. -/
theorem truncateHistory_keep_last_witness :
    (sessionMsgs (TruncateHistory
        (addAll emptyStore "s" [(⟨"user", "a", [], ""⟩, "t1"), (⟨"user", "b", [], ""⟩, "t2"),
          (⟨"user", "c", [], ""⟩, "t3")]) "s" 2 "t4") "s"
      = (sessionMsgs (addAll emptyStore "s" [(⟨"user", "a", [], ""⟩, "t1"),
          (⟨"user", "b", [], ""⟩, "t2"), (⟨"user", "c", [], ""⟩, "t3")]) "s").drop 1 ∧
    GetHistory (TruncateHistory
        (addAll emptyStore "s" [(⟨"user", "a", [], ""⟩, "t1"), (⟨"user", "b", [], ""⟩, "t2"),
          (⟨"user", "c", [], ""⟩, "t3")]) "s" 2 "t4") "s"
      = (GetHistory (addAll emptyStore "s" [(⟨"user", "a", [], ""⟩, "t1"),
          (⟨"user", "b", [], ""⟩, "t2"), (⟨"user", "c", [], ""⟩, "t3")]) "s").drop 1) ∧
    sessionMsgs (TruncateHistory
        (addAll emptyStore "s" [(⟨"user", "a", [], ""⟩, "t1"), (⟨"user", "b", [], ""⟩, "t2"),
          (⟨"user", "c", [], ""⟩, "t3")]) "s" 0 "t5") "s" = [] := by
  refine ⟨?_, ?_⟩
  · have h := (truncateHistory_keep_last
      (addAll emptyStore "s" [(⟨"user", "a", [], ""⟩, "t1"), (⟨"user", "b", [], ""⟩, "t2"),
        (⟨"user", "c", [], ""⟩, "t3")]) "s" 2 "t4" (by decide) (by decide)).2 (by decide)
    exact h
  · exact (truncateHistory_keep_last
      (addAll emptyStore "s" [(⟨"user", "a", [], ""⟩, "t1"), (⟨"user", "b", [], ""⟩, "t2"),
        (⟨"user", "c", [], ""⟩, "t3")]) "s" 0 "t5" (by decide) (by decide)).1 (by decide)

/-! ## The legacy importer -/

theorem migrateLoop_append (now : String) (xs ys : List FsEntry) : ∀ st : Store,
    migrateLoop st now (xs ++ ys)
      = ((migrateLoop st now xs).1 + (migrateLoop (migrateLoop st now xs).2.1 now ys).1,
         (migrateLoop (migrateLoop st now xs).2.1 now ys).2.1,
         (migrateLoop st now xs).2.2 ++ (migrateLoop (migrateLoop st now xs).2.1 now ys).2.2) := by
  induction xs with
  | nil => intro st; simp [migrateLoop]
  | cons e rest ih =>
      intro st
      by_cases hc : isCandidate e = true
      · rcases hb : e.body with _ | _ | sess
        · simp [migrateLoop, hc, hb, ih]
        · simp [migrateLoop, hc, hb, ih]
        · by_cases hk : (sess.key == "") = true
          · simp [migrateLoop, hc, hb, hk, ih]
          · simp [migrateLoop, hc, hb, hk, ih]
            omega
      · simp [migrateLoop, hc, ih]

theorem migrateLoop_count (now : String) (es : List FsEntry) : ∀ st : Store,
    (migrateLoop st now es).1 = (es.filter goodFile).length := by
  induction es with
  | nil => intro st; rfl
  | cons e rest ih =>
      intro st
      by_cases hc : isCandidate e = true
      · rcases hb : e.body with _ | _ | sess
        · simp [migrateLoop, hc, hb, goodFile, List.filter_cons, ih]
        · simp [migrateLoop, hc, hb, goodFile, List.filter_cons, ih]
        · by_cases hk : (sess.key == "") = true <;>
            simp [migrateLoop, hc, hb, hk, goodFile, List.filter_cons, ih]
      · simp [migrateLoop, hc, goodFile, List.filter_cons, ih]

theorem migrateLoop_entries (now : String) (es : List FsEntry) : ∀ st : Store,
    (migrateLoop st now es).2.2
      = es.map (fun e => if goodFile e = true then renameEntry e else e) := by
  induction es with
  | nil => intro st; rfl
  | cons e rest ih =>
      intro st
      by_cases hc : isCandidate e = true
      · rcases hb : e.body with _ | _ | sess
        · simp [migrateLoop, hc, hb, goodFile, ih]
        · simp [migrateLoop, hc, hb, goodFile, ih]
        · by_cases hk : (sess.key == "") = true <;>
            simp [migrateLoop, hc, hb, hk, goodFile, ih]
      · simp [migrateLoop, hc, goodFile, ih]

theorem migrateLoop_noop (now : String) (es : List FsEntry)
    (h : ∀ e ∈ es, goodFile e = false) : ∀ st : Store,
    migrateLoop st now es = (0, st, es) := by
  induction es with
  | nil => intro st; rfl
  | cons e rest ih =>
      intro st
      have he : goodFile e = false := h e (List.mem_cons_self _ _)
      have hrest : ∀ e' ∈ rest, goodFile e' = false :=
        fun e' he' => h e' (List.mem_cons_of_mem _ he')
      by_cases hc : isCandidate e = true
      · rcases hb : e.body with _ | _ | sess
        · simp [migrateLoop, hc, hb, ih hrest]
        · simp [migrateLoop, hc, hb, ih hrest]
        · have hk : (sess.key == "") = true := by
            simp [goodFile, hc, hb] at he
            simp [he]
          simp [migrateLoop, hc, hb, hk, ih hrest]
      · simp [migrateLoop, hc, ih hrest]

theorem hasSuffix_append_self (s t : String) : hasSuffix (s ++ t) t = true := by
  simp [hasSuffix]

theorem goodFile_renameEntry (e : FsEntry) (h : e.renameFails = false) :
    goodFile (renameEntry e) = false := by
  simp [renameEntry, h, goodFile, isCandidate, hasSuffix_append_self]

theorem migrateLoop_singleton_bad (st : Store) (now : String) (b : FsEntry)
    (h : badFile b = true) : migrateLoop st now [b] = (0, st, [b]) := by
  have h' := h
  simp only [badFile, Bool.and_eq_true] at h'
  obtain ⟨hc, hm⟩ := h'
  rcases hb : b.body with _ | _ | sess
  · simp [migrateLoop, hc, hb]
  · simp [migrateLoop, hc, hb]
  · have hk : (sess.key == "") = true := by
      rw [hb] at hm
      exact hm
    simp [migrateLoop, hc, hb, hk]

theorem insertOrIgnoreSession_messages (st : Store) (k su c u : String) :
    (insertOrIgnoreSession st k su c u).messages = st.messages := by
  unfold insertOrIgnoreSession; split <;> rfl

theorem importSession_existing_messages (st : Store) (sess : JsonSession) (now : String)
    (h : sessionMsgs st sess.key ≠ []) :
    (importSession st sess now).messages = st.messages := by
  unfold importSession
  have hmsgs : sessionMsgs
      (insertOrIgnoreSession st sess.key sess.summary sess.created sess.updated) sess.key
      = sessionMsgs st sess.key := by
    unfold sessionMsgs
    rw [insertOrIgnoreSession_messages]
  have hlen : (sessionMsgs st sess.key).length > 0 := by
    cases hx : sessionMsgs st sess.key with
    | nil => exact absurd hx h
    | cons a l => simp
  simp [hmsgs, hlen, insertOrIgnoreSession_messages]

/-- C2 fails on the code: `MigrateFromJSON` discards the `os.Rename`
error (`_ = os.Rename(...)`, migration.go:74) and increments `migrated`
unconditionally afterwards — here a single well-formed file whose rename
fails (its name still `a.json` in the resulting listing) is nevertheless
counted, returning 1 where the claim demands it not be counted. -/
theorem rename_failure_still_counted :
    (migrateLoop emptyStore "t"
        [⟨"a.json", false, .parsed ⟨"a", [], "", "c", "u"⟩, true⟩]).1 = 1 ∧
    (migrateLoop emptyStore "t"
        [⟨"a.json", false, .parsed ⟨"a", [], "", "c", "u"⟩, true⟩]).2.2
      = [⟨"a.json", false, .parsed ⟨"a", [], "", "c", "u"⟩, true⟩] := by
  exact ⟨by decide, by decide⟩

/-- C2 amended: the success counter counts exactly the candidate files
that parse with a non-empty key (whose per-file transaction commit
succeeds); the rename outcome is ignored, so the count is invariant
under making every rename fail. -/
theorem migrated_count_ignores_rename (st : Store) (now : String) (es : List FsEntry) :
    (migrateLoop st now es).1 = (es.filter goodFile).length ∧
    (migrateLoop st now (es.map (fun e => { e with renameFails := true }))).1
      = (migrateLoop st now es).1 := by
  refine ⟨migrateLoop_count now es st, ?_⟩
  rw [migrateLoop_count now _ st, migrateLoop_count now es st]
  have hfun : (goodFile ∘ fun e : FsEntry => { e with renameFails := true }) = goodFile :=
    funext fun e => rfl
  rw [List.filter_map, hfun, List.length_map]

/-- C6: with all renames succeeding, the first `migrateLoop` run imports
every well-formed candidate file (count = number of such files) and
renames exactly those; a second run over the resulting directory imports
0 sessions and leaves the store (sessions, messages, summaries) and the
listing unchanged; and a session that already has messages is committed
by `importSession` without re-inserting any message. -/
theorem migrate_rerun_noop (st : Store) (now now2 : String) (es : List FsEntry)
    (h : ∀ e ∈ es, e.renameFails = false) :
    (migrateLoop st now es).1 = (es.filter goodFile).length ∧
    (migrateLoop st now es).2.2
      = es.map (fun e => if goodFile e = true then renameEntry e else e) ∧
    migrateLoop (migrateLoop st now es).2.1 now2 (migrateLoop st now es).2.2
      = (0, (migrateLoop st now es).2.1, (migrateLoop st now es).2.2) ∧
    (∀ sess : JsonSession, sessionMsgs st sess.key ≠ [] →
      (importSession st sess now).messages = st.messages) := by
  refine ⟨migrateLoop_count now es st, migrateLoop_entries now es st, ?_,
    fun sess hs => importSession_existing_messages st sess now hs⟩
  have hout : ∀ e' ∈ (migrateLoop st now es).2.2, goodFile e' = false := by
    rw [migrateLoop_entries now es st]
    intro e' he'
    obtain ⟨e, he, rfl⟩ := List.mem_map.mp he'
    by_cases hg : goodFile e = true
    · simp only [hg, if_true, if_pos]
      exact goodFile_renameEntry e (h e he)
    · simp only [hg, if_false, if_neg]
      exact Bool.not_eq_true _ ▸ Bool.of_not_eq_true hg
  exact migrateLoop_noop now2 _ hout _

/-- Witness for C6: one well-formed file, one unparsable file; the rerun
is a no-op. -/
theorem migrate_rerun_noop_witness :
    (migrateLoop emptyStore "t"
        [⟨"a.json", false, .parsed ⟨"a", [⟨"user", "hi", [], ""⟩], "s", "c", "u"⟩, false⟩,
         ⟨"bad.json", false, .unparsable, false⟩]).1
      = ([⟨"a.json", false, .parsed ⟨"a", [⟨"user", "hi", [], ""⟩], "s", "c", "u"⟩, false⟩,
          ⟨"bad.json", false, .unparsable, false⟩].filter goodFile).length ∧
    (migrateLoop emptyStore "t"
        [⟨"a.json", false, .parsed ⟨"a", [⟨"user", "hi", [], ""⟩], "s", "c", "u"⟩, false⟩,
         ⟨"bad.json", false, .unparsable, false⟩]).2.2
      = [⟨"a.json", false, .parsed ⟨"a", [⟨"user", "hi", [], ""⟩], "s", "c", "u"⟩, false⟩,
         ⟨"bad.json", false, .unparsable, false⟩].map
          (fun e => if goodFile e = true then renameEntry e else e) ∧
    migrateLoop
        (migrateLoop emptyStore "t"
          [⟨"a.json", false, .parsed ⟨"a", [⟨"user", "hi", [], ""⟩], "s", "c", "u"⟩, false⟩,
           ⟨"bad.json", false, .unparsable, false⟩]).2.1 "t2"
        (migrateLoop emptyStore "t"
          [⟨"a.json", false, .parsed ⟨"a", [⟨"user", "hi", [], ""⟩], "s", "c", "u"⟩, false⟩,
           ⟨"bad.json", false, .unparsable, false⟩]).2.2
      = (0,
         (migrateLoop emptyStore "t"
           [⟨"a.json", false, .parsed ⟨"a", [⟨"user", "hi", [], ""⟩], "s", "c", "u"⟩, false⟩,
            ⟨"bad.json", false, .unparsable, false⟩]).2.1,
         (migrateLoop emptyStore "t"
           [⟨"a.json", false, .parsed ⟨"a", [⟨"user", "hi", [], ""⟩], "s", "c", "u"⟩, false⟩,
            ⟨"bad.json", false, .unparsable, false⟩]).2.2) ∧
    (∀ sess : JsonSession, sessionMsgs emptyStore sess.key ≠ [] →
      (importSession emptyStore sess "t").messages = emptyStore.messages) :=
  migrate_rerun_noop emptyStore "t" "t2"
    [⟨"a.json", false, .parsed ⟨"a", [⟨"user", "hi", [], ""⟩], "s", "c", "u"⟩, false⟩,
     ⟨"bad.json", false, .unparsable, false⟩] (by decide)

/-- C7: the batch is fail-soft per file — a candidate file that is
unreadable, unparsable, or has an empty key contributes nothing to the
count or the store and stays in the listing unchanged while its siblings
are processed exactly as if it were absent; no per-file failure is
surfaced as an error, and a missing legacy directory yields count 0 with
no error. -/
theorem migrate_fail_soft (st : Store) (now : String) (es1 es2 : List FsEntry)
    (b : FsEntry) (hb : badFile b = true) :
    MigrateFromJSON st now .notExist = .ok (0, st, []) ∧
    MigrateFromJSON st now (.ok (es1 ++ b :: es2))
      = .ok (migrateLoop st now (es1 ++ b :: es2)) ∧
    (migrateLoop st now (es1 ++ b :: es2)).1 = (migrateLoop st now (es1 ++ es2)).1 ∧
    (migrateLoop st now (es1 ++ b :: es2)).2.1 = (migrateLoop st now (es1 ++ es2)).2.1 ∧
    (migrateLoop st now (es1 ++ b :: es2)).2.2
      = (migrateLoop st now es1).2.2 ++
          b :: (migrateLoop (migrateLoop st now es1).2.1 now es2).2.2 := by
  have hb1 : ∀ s : Store, migrateLoop s now (b :: es2)
      = ((migrateLoop s now es2).1, (migrateLoop s now es2).2.1,
         b :: (migrateLoop s now es2).2.2) := by
    intro s
    have h1 := migrateLoop_append now [b] es2 s
    rw [migrateLoop_singleton_bad s now b hb] at h1
    simpa using h1
  refine ⟨rfl, rfl, ?_, ?_, ?_⟩
  · rw [migrateLoop_append now es1 (b :: es2) st, hb1,
      migrateLoop_append now es1 es2 st]
  · rw [migrateLoop_append now es1 (b :: es2) st, hb1,
      migrateLoop_append now es1 es2 st]
  · rw [migrateLoop_append now es1 (b :: es2) st, hb1]

/-- Witness for C7: an unparsable file between two well-formed ones. -/
theorem migrate_fail_soft_witness :
    MigrateFromJSON emptyStore "t" DirRead.notExist = .ok (0, emptyStore, []) ∧
    MigrateFromJSON emptyStore "t"
        (.ok ([⟨"a.json", false, .parsed ⟨"a", [], "", "c", "u"⟩, false⟩] ++
          ⟨"bad.json", false, .unparsable, false⟩ ::
            [⟨"b.json", false, .parsed ⟨"b", [], "", "c", "u"⟩, false⟩]))
      = .ok (migrateLoop emptyStore "t"
          ([⟨"a.json", false, .parsed ⟨"a", [], "", "c", "u"⟩, false⟩] ++
            ⟨"bad.json", false, .unparsable, false⟩ ::
              [⟨"b.json", false, .parsed ⟨"b", [], "", "c", "u"⟩, false⟩])) ∧
    (migrateLoop emptyStore "t"
        ([⟨"a.json", false, .parsed ⟨"a", [], "", "c", "u"⟩, false⟩] ++
          ⟨"bad.json", false, .unparsable, false⟩ ::
            [⟨"b.json", false, .parsed ⟨"b", [], "", "c", "u"⟩, false⟩])).1
      = (migrateLoop emptyStore "t"
          ([⟨"a.json", false, .parsed ⟨"a", [], "", "c", "u"⟩, false⟩] ++
            [⟨"b.json", false, .parsed ⟨"b", [], "", "c", "u"⟩, false⟩])).1 ∧
    (migrateLoop emptyStore "t"
        ([⟨"a.json", false, .parsed ⟨"a", [], "", "c", "u"⟩, false⟩] ++
          ⟨"bad.json", false, .unparsable, false⟩ ::
            [⟨"b.json", false, .parsed ⟨"b", [], "", "c", "u"⟩, false⟩])).2.1
      = (migrateLoop emptyStore "t"
          ([⟨"a.json", false, .parsed ⟨"a", [], "", "c", "u"⟩, false⟩] ++
            [⟨"b.json", false, .parsed ⟨"b", [], "", "c", "u"⟩, false⟩])).2.1 ∧
    (migrateLoop emptyStore "t"
        ([⟨"a.json", false, .parsed ⟨"a", [], "", "c", "u"⟩, false⟩] ++
          ⟨"bad.json", false, .unparsable, false⟩ ::
            [⟨"b.json", false, .parsed ⟨"b", [], "", "c", "u"⟩, false⟩])).2.2
      = (migrateLoop emptyStore "t"
          [⟨"a.json", false, .parsed ⟨"a", [], "", "c", "u"⟩, false⟩]).2.2 ++
          ⟨"bad.json", false, .unparsable, false⟩ ::
            (migrateLoop
              (migrateLoop emptyStore "t"
                [⟨"a.json", false, .parsed ⟨"a", [], "", "c", "u"⟩, false⟩]).2.1 "t"
              [⟨"b.json", false, .parsed ⟨"b", [], "", "c", "u"⟩, false⟩]).2.2 :=
  migrate_fail_soft emptyStore "t"
    [⟨"a.json", false, .parsed ⟨"a", [], "", "c", "u"⟩, false⟩]
    [⟨"b.json", false, .parsed ⟨"b", [], "", "c", "u"⟩, false⟩]
    ⟨"bad.json", false, .unparsable, false⟩ (by decide)

/-- Witness for C10: truncating a never-written key on a store that
holds a different session. -/
theorem truncateHistory_no_session_row_witness :
    (TruncateHistory (ensureSession emptyStore "other" "t0") "k" 3 "t1").sessions
      = (ensureSession emptyStore "other" "t0").sessions ∧
    GetSummary (TruncateHistory (ensureSession emptyStore "other" "t0") "k" 3 "t1") "k"
      = "" :=
  truncateHistory_no_session_row (ensureSession emptyStore "other" "t0") "k" 3 "t1"
    (by decide)

end Picoclaw
